import Mathlib

/-!
Verification of `src/straddle_pricer.py` (Straddle-Pricing repository).

The Python source is shallowly embedded over the real numbers.  The external
randomness source (`np.random.normal(0, daily_vol, shape)`) is modelled by an
explicitly passed stream of standard normal variates, which the embedded code
scales by the requested standard deviation `daily_vol`, exactly as a normal
sampler does; every theorem quantifies over all realizations of that stream.
Python `for` loops become `List.foldl` over `List.range`; vectorized numpy
reductions (`np.prod`, `.sum()`, `.prod(axis=0)`) become `Finset` products and
sums; the pandas `cumprod` becomes an explicit scan.
-/

open Real

namespace StraddlePricer

/-- Python `int()` truncates toward zero: floor for non-negative reals,
ceiling for negative ones. -/
noncomputable def truncInt (x : ℝ) : ℤ := if 0 ≤ x then ⌊x⌋ else ⌈x⌉

/-- `n_days = int(time * 252)`.  For negative `time` the Python code would pass
a negative size to `np.random.normal`, which raises; all claims take `time > 0`,
where the clamp to `ℕ` is exact. -/
noncomputable def n_days (time : ℝ) : ℕ := (truncInt (time * 252)).toNat

/-- `straddle_price` from `src/straddle_pricer.py`:
`(2 / (2 * np.pi) ** 0.5) * an_vol * np.sqrt(time)`. -/
noncomputable def straddle_price (an_vol : ℝ) (time : ℝ) : ℝ :=
  (2 / (2 * Real.pi) ^ (0.5 : ℝ)) * an_vol * Real.sqrt time

/-- `straddle_pricer_mc` from `src/straddle_pricer.py`.  The Python loop
`for _ in range(mc_paths)` accumulating
`result_sum += np.abs(np.prod(1 + returns) - 1)` with
`returns = np.random.normal(0, daily_vol, n_days)` is embedded as a fold over
`List.range mc_paths`; draw `j` of path `i` is `daily_vol * z i j`. -/
noncomputable def straddle_pricer_mc (an_vol time : ℝ) (mc_paths : ℕ)
    (z : ℕ → ℕ → ℝ) : ℝ :=
  let daily_vol := an_vol / Real.sqrt 252
  let result_sum := (List.range mc_paths).foldl
    (fun result_sum i =>
      result_sum + |(∏ j in Finset.range (n_days time), (1 + daily_vol * z i j)) - 1|) 0
  result_sum / mc_paths

/-- `five_prices` from `src/straddle_pricer.py`.  Each of the 5 loop iterations
generates an `n_days × mc_paths` matrix of draws (entry `(j, c)` of batch `k`
is `daily_vol * z k j c`), takes the columnwise product of `data + 1`, and
appends `np.abs(... - 1).sum() / mc_paths` to the results list. -/
noncomputable def five_prices (an_vol time : ℝ) (mc_paths : ℕ)
    (z : ℕ → ℕ → ℕ → ℝ) : List ℝ :=
  let daily_vol := an_vol / Real.sqrt 252
  (List.range 5).foldl
    (fun results k =>
      results ++ [(∑ c in Finset.range mc_paths,
        |(∏ j in Finset.range (n_days time), (daily_vol * z k j c + 1)) - 1|) / mc_paths]) []

/-- The two columns of the `pd.DataFrame` built by `simulate_asset_path`:
`ret` is the column `df['return'] = returns + 1` of per-day multiplicative
factors, `price` is `df['price'] = df['return'].cumprod()`. -/
structure AssetPath where
  ret : List ℝ
  price : List ℝ

/-- Running cumulative product with accumulator `acc`, embedding pandas
`Series.cumprod`. -/
noncomputable def cumprodAux (acc : ℝ) : List ℝ → List ℝ
  | [] => []
  | x :: xs => (acc * x) :: cumprodAux (acc * x) xs

/-- `cumprod [a, b, c] = [a, a*b, a*b*c]`, as pandas `cumprod`. -/
noncomputable def cumprod (l : List ℝ) : List ℝ := cumprodAux 1 l

/-- `simulate_asset_path` from `src/straddle_pricer.py`: draw `n_days` returns
`daily_vol * z j`, compute `straddle_return = np.abs(np.prod(1 + returns) - 1)`,
and build the DataFrame with columns `returns + 1` and its cumulative
product. -/
noncomputable def simulate_asset_path (an_vol time : ℝ) (z : ℕ → ℝ) :
    AssetPath × ℝ :=
  let daily_vol := an_vol / Real.sqrt 252
  let returns := (List.range (n_days time)).map (fun j => daily_vol * z j)
  let straddle_return := |(returns.map (fun r => 1 + r)).prod - 1|
  let ret := returns.map (fun r => r + 1)
  ({ ret := ret, price := cumprod ret }, straddle_return)

/-- Step 5 of the script body:
`mc_avg = np.mean([straddle_return for _ in range(mc_paths)])`, i.e. the mean
of a list holding the same scalar `mc_paths` times. -/
noncomputable def mc_avg (straddle_return : ℝ) (mc_paths : ℕ) : ℝ :=
  (List.replicate mc_paths straddle_return).sum /
    (List.replicate mc_paths straddle_return).length

end StraddlePricer

open StraddlePricer

/-! ### Helper lemmas -/

lemma two_pi_rpow_half : (2 * Real.pi) ^ (0.5 : ℝ) = Real.sqrt (2 * Real.pi) := by
  rw [Real.sqrt_eq_rpow]
  norm_num

lemma straddle_price_eq (an_vol time : ℝ) :
    straddle_price an_vol time = (2 / Real.sqrt (2 * Real.pi)) * an_vol * Real.sqrt time := by
  rw [straddle_price, two_pi_rpow_half]

lemma sqrt_two_pi_pos : 0 < Real.sqrt (2 * Real.pi) :=
  Real.sqrt_pos.mpr (by positivity)

lemma n_days_eq_floor (time : ℝ) (ht : 0 ≤ time) : n_days time = ⌊time * 252⌋₊ := by
  rw [n_days, truncInt, if_pos (by positivity), Int.floor_toNat]

lemma foldl_add_range (f : ℕ → ℝ) :
    ∀ (n : ℕ) (c : ℝ),
      (List.range n).foldl (fun acc i => acc + f i) c = c + ∑ i in Finset.range n, f i := by
  intro n
  induction n with
  | zero => simp
  | succ m ih =>
      intro c
      rw [List.range_succ, List.foldl_append, ih, Finset.sum_range_succ]
      simp [add_assoc]

lemma straddle_pricer_mc_eq_sum (an_vol time : ℝ) (mc_paths : ℕ) (z : ℕ → ℕ → ℝ) :
    straddle_pricer_mc an_vol time mc_paths z =
      (∑ i in Finset.range mc_paths,
        |(∏ j in Finset.range (n_days time),
            (1 + (an_vol / Real.sqrt 252) * z i j)) - 1|) / mc_paths := by
  rw [straddle_pricer_mc, foldl_add_range, zero_add]

lemma foldl_append_map (f : ℕ → ℝ) :
    ∀ (l : List ℕ) (acc : List ℝ),
      l.foldl (fun results k => results ++ [f k]) acc = acc ++ l.map f := by
  intro l
  induction l with
  | nil => simp
  | cons a l ih =>
      intro acc
      rw [List.foldl_cons, ih, List.map_cons]
      simp

lemma five_prices_eq_map (an_vol time : ℝ) (mc_paths : ℕ) (z : ℕ → ℕ → ℕ → ℝ) :
    five_prices an_vol time mc_paths z =
      (List.range 5).map (fun k =>
        (∑ c in Finset.range mc_paths,
          |(∏ j in Finset.range (n_days time),
              ((an_vol / Real.sqrt 252) * z k j c + 1)) - 1|) / mc_paths) := by
  rw [five_prices, foldl_append_map, List.nil_append]

lemma prod_map_range (f : ℕ → ℝ) :
    ∀ n : ℕ, ((List.range n).map f).prod = ∏ i in Finset.range n, f i := by
  intro n
  induction n with
  | zero => simp
  | succ m ih =>
      rw [List.range_succ, List.map_append, List.prod_append, Finset.prod_range_succ, ih]
      simp

lemma cumprodAux_length : ∀ (l : List ℝ) (acc : ℝ), (cumprodAux acc l).length = l.length := by
  intro l
  induction l with
  | nil => intro acc; rfl
  | cons x xs ih => intro acc; simp [cumprodAux, ih]

lemma cumprodAux_getLastD :
    ∀ (l : List ℝ) (acc : ℝ), (cumprodAux acc l).getLastD acc = acc * l.prod := by
  intro l
  induction l with
  | nil => intro acc; simp [cumprodAux]
  | cons x xs ih =>
      intro acc
      rw [cumprodAux, List.getLastD_cons, ih, List.prod_cons, mul_assoc]

lemma getD_nonneg (l : List ℝ) (i : ℕ) (h : ∀ x ∈ l, 0 ≤ x) : 0 ≤ l.getD i 0 := by
  rcases hg : l[i]? with _ | a
  · simp [List.getD, hg]
  · have ha : a ∈ l := by
      have := List.getElem?_eq_some.mp hg
      rcases this with ⟨hi, hget⟩
      exact hget ▸ List.getElem_mem hi
    simpa [List.getD, hg] using h a ha

/-! ### Claims -/

/-- Claim C2: for every annualized volatility `sigma` and every time horizon
`t`, `straddle_price sigma t` returns exactly `(2 / sqrt (2 * pi)) * sigma *
sqrt t`; the function takes no randomness stream, so the value is
deterministic. -/
theorem C2_straddle_price_closed_form (an_vol time : ℝ) :
    straddle_price an_vol time = (2 / Real.sqrt (2 * Real.pi)) * an_vol * Real.sqrt time :=
  straddle_price_eq an_vol time

/-- Claim C7: for all `sigma > 0` and `t > 0`, `straddle_price` is strictly
increasing in `sigma` with `t` fixed, and strictly increasing in `t` with
`sigma` fixed. -/
theorem C7_straddle_price_strict_mono (v₁ v₂ t σ t₁ t₂ : ℝ)
    (hv₁ : 0 < v₁) (hv : v₁ < v₂) (ht : 0 < t)
    (hσ : 0 < σ) (ht₁ : 0 < t₁) (ht₂ : t₁ < t₂) :
    straddle_price v₁ t < straddle_price v₂ t ∧
    straddle_price σ t₁ < straddle_price σ t₂ := by
  have hc : 0 < 2 / Real.sqrt (2 * Real.pi) := by positivity
  constructor
  · rw [straddle_price_eq, straddle_price_eq]
    have hst : 0 < Real.sqrt t := Real.sqrt_pos.mpr ht
    have := mul_lt_mul_of_pos_left hv hc
    exact mul_lt_mul_of_pos_right this hst
  · rw [straddle_price_eq, straddle_price_eq]
    have hs : Real.sqrt t₁ < Real.sqrt t₂ := Real.sqrt_lt_sqrt ht₁.le ht₂
    have hco : 0 < 2 / Real.sqrt (2 * Real.pi) * σ := by positivity
    exact mul_lt_mul_of_pos_left hs hco

/-- Witness for C7 at `v₁ = 1, v₂ = 2, t = 1, σ = 1, t₁ = 1, t₂ = 4`. -/
theorem C7_straddle_price_strict_mono_witness :
    straddle_price 1 1 < straddle_price 2 1 ∧ straddle_price 1 1 < straddle_price 1 4 :=
  C7_straddle_price_strict_mono 1 2 1 1 1 4
    (by norm_num) (by norm_num) (by norm_num) (by norm_num) (by norm_num) (by norm_num)

/-- Claim C1: for every annualized volatility, every time horizon `t > 0`,
every path count `mc_paths ≥ 1` and every realization of the draws,
`straddle_pricer_mc` returns the arithmetic mean over the `mc_paths` trials of
`|∏ over the n_days factors (1 + daily_return) - 1|`, where each daily return
is `daily_vol * z i j` with `daily_vol = an_vol / sqrt 252` the standard
deviation of the draw and `n_days = ⌊t * 252⌋₊`. -/
theorem C1_straddle_pricer_mc_mean (an_vol time : ℝ) (mc_paths : ℕ)
    (z : ℕ → ℕ → ℝ) (ht : 0 < time) (hp : 1 ≤ mc_paths) :
    straddle_pricer_mc an_vol time mc_paths z =
      (∑ i in Finset.range mc_paths,
        |(∏ j in Finset.range ⌊time * 252⌋₊,
            (1 + (an_vol / Real.sqrt 252) * z i j)) - 1|) / mc_paths := by
  rw [straddle_pricer_mc_eq_sum, n_days_eq_floor time ht.le]

/-- Witness for C1 at `an_vol = 1, time = 1, mc_paths = 1`, all draws 0. -/
theorem C1_straddle_pricer_mc_mean_witness :
    0 < (1 : ℝ) ∧ 1 ≤ 1 ∧
    straddle_pricer_mc 1 1 1 (fun _ _ => 0) =
      (∑ i in Finset.range 1,
        |(∏ j in Finset.range ⌊(1 : ℝ) * 252⌋₊,
            (1 + (1 / Real.sqrt 252) * 0)) - 1|) / ((1 : ℕ) : ℝ) :=
  ⟨by norm_num, le_refl 1,
    C1_straddle_pricer_mc_mean 1 1 1 (fun _ _ => 0) (by norm_num) (le_refl 1)⟩

/-- Claim C3: with `mc_paths = 1` and the identical sequence of draws,
`straddle_pricer_mc` returns exactly the `straddle_return` scalar of
`simulate_asset_path` at the same volatility and horizon. -/
theorem C3_mc_single_path_agrees (an_vol time : ℝ) (z : ℕ → ℝ) :
    straddle_pricer_mc an_vol time 1 (fun _ j => z j) =
      (simulate_asset_path an_vol time z).2 := by
  rw [straddle_pricer_mc_eq_sum]
  simp only [simulate_asset_path, List.map_map, Function.comp_def,
    Finset.sum_range_one, Nat.cast_one, div_one]
  rw [prod_map_range (fun j => 1 + an_vol / Real.sqrt 252 * z j) (n_days time)]

/-- Claim C4: for `t > 0` the price series of `simulate_asset_path` has length
`⌊t * 252⌋₊`; when nonempty its first value is `1 +` the first daily return;
and the absolute distance of its last value from 1 equals the returned
`straddle_return` scalar (round-trip consistency, with the empty series
matching `straddle_return = 0` through the default last value 1). -/
theorem C4_simulate_asset_path_roundtrip (an_vol time : ℝ) (z : ℕ → ℝ)
    (ht : 0 < time) :
    (simulate_asset_path an_vol time z).1.price.length = ⌊time * 252⌋₊ ∧
    (0 < n_days time →
      (simulate_asset_path an_vol time z).1.price.head? =
        some (1 + an_vol / Real.sqrt 252 * z 0)) ∧
    |(simulate_asset_path an_vol time z).1.price.getLastD 1 - 1| =
      (simulate_asset_path an_vol time z).2 := by
  refine ⟨?_, ?_, ?_⟩
  · simp only [simulate_asset_path, cumprod]
    rw [cumprodAux_length]
    simp [n_days_eq_floor time ht.le]
  · intro hn
    obtain ⟨m, hm⟩ : ∃ m, n_days time = m + 1 := ⟨n_days time - 1, by omega⟩
    simp only [simulate_asset_path, hm, List.range_succ_eq_map, List.map_cons,
      cumprod, cumprodAux, List.head?_cons]
    rw [one_mul, add_comm]
  · simp only [simulate_asset_path, cumprod]
    rw [cumprodAux_getLastD, one_mul]
    have hmap : ∀ l : List ℝ,
        (l.map fun r => r + 1) = l.map fun r => 1 + r := by
      intro l
      have : (fun r : ℝ => r + 1) = fun r => 1 + r := by funext r; ring
      rw [this]
    rw [hmap]

/-- Witness for C4 at `an_vol = 0, time = 1`, all draws 0. -/
theorem C4_simulate_asset_path_roundtrip_witness :
    0 < (1 : ℝ) ∧
    ((simulate_asset_path 0 1 (fun _ => 0)).1.price.length = ⌊(1 : ℝ) * 252⌋₊ ∧
    (0 < n_days 1 →
      (simulate_asset_path 0 1 (fun _ => 0)).1.price.head? =
        some (1 + 0 / Real.sqrt 252 * 0)) ∧
    |(simulate_asset_path 0 1 (fun _ => 0)).1.price.getLastD 1 - 1| =
      (simulate_asset_path 0 1 (fun _ => 0)).2) :=
  ⟨by norm_num, C4_simulate_asset_path_roundtrip 0 1 (fun _ => 0) (by norm_num)⟩

/-- Claim C5: for `t > 0` and `mc_paths ≥ 1`, `five_prices` returns exactly 5
values in generation order, and element `k` is the mean over the `mc_paths`
columns of `|final value of the column's cumulative product of (1 + draw) - 1|`
over an `n_days × mc_paths` matrix of draws. -/
theorem C5_five_prices_batches (an_vol time : ℝ) (mc_paths : ℕ)
    (z : ℕ → ℕ → ℕ → ℝ) (ht : 0 < time) (hp : 1 ≤ mc_paths)
    (k : ℕ) (hk : k < 5) :
    (five_prices an_vol time mc_paths z).length = 5 ∧
    (five_prices an_vol time mc_paths z).getD k 0 =
      (∑ c in Finset.range mc_paths,
        |(∏ j in Finset.range ⌊time * 252⌋₊,
            (1 + (an_vol / Real.sqrt 252) * z k j c)) - 1|) / mc_paths := by
  rw [five_prices_eq_map]
  constructor
  · simp
  · rw [List.getD, List.get?_map, List.get?_range hk]
    simp only [Option.map_some', Option.getD_some]
    rw [n_days_eq_floor time ht.le]
    congr 1
    refine Finset.sum_congr rfl fun c _ => ?_
    congr 1
    congr 1
    exact Finset.prod_congr rfl fun j _ => by ring

/-- Witness for C5 at `an_vol = 1, time = 1, mc_paths = 1, k = 0`, draws 0. -/
theorem C5_five_prices_batches_witness :
    0 < (1 : ℝ) ∧ 1 ≤ 1 ∧ 0 < 5 ∧
    ((five_prices 1 1 1 (fun _ _ _ => 0)).length = 5 ∧
    (five_prices 1 1 1 (fun _ _ _ => 0)).getD 0 0 =
      (∑ c in Finset.range 1,
        |(∏ j in Finset.range ⌊(1 : ℝ) * 252⌋₊,
            (1 + (1 / Real.sqrt 252) * 0)) - 1|) / ((1 : ℕ) : ℝ)) :=
  ⟨by norm_num, le_refl 1, by norm_num,
    C5_five_prices_batches 1 1 1 (fun _ _ _ => 0) (by norm_num) (le_refl 1)
      0 (by norm_num)⟩

/-- Claim C8: the script's MC-average-using-fixed-return step is a no-op — the
mean of the same scalar repeated `n ≥ 1` times is that scalar. -/
theorem C8_mc_avg_noop (straddle_return : ℝ) (mc_paths : ℕ)
    (hn : 1 ≤ mc_paths) : mc_avg straddle_return mc_paths = straddle_return := by
  have hn0 : (mc_paths : ℝ) ≠ 0 := Nat.cast_ne_zero.mpr (by omega)
  rw [mc_avg, List.sum_replicate, List.length_replicate, nsmul_eq_mul]
  exact mul_div_cancel_left₀ straddle_return hn0

/-- Witness for C8 at `straddle_return = 2, mc_paths = 100`. -/
theorem C8_mc_avg_noop_witness : 1 ≤ 100 ∧ mc_avg 2 100 = 2 :=
  ⟨by norm_num, C8_mc_avg_noop 2 100 (by norm_num)⟩

/-- Claim C9: for `0 < t < 1/252` the derived day count is 0, and
`straddle_pricer_mc` returns exactly 0 for every `mc_paths ≥ 1` and every
realization of the draws (empty product per path, so each straddle return is
`|1 - 1| = 0`). -/
theorem C9_tiny_horizon_zero (an_vol time : ℝ) (mc_paths : ℕ)
    (z : ℕ → ℕ → ℝ) (ht : 0 < time) (ht' : time < 1 / 252)
    (hp : 1 ≤ mc_paths) :
    n_days time = 0 ∧ straddle_pricer_mc an_vol time mc_paths z = 0 := by
  have h0 : n_days time = 0 := by
    rw [n_days_eq_floor time ht.le, Nat.floor_eq_zero]
    nlinarith
  refine ⟨h0, ?_⟩
  rw [straddle_pricer_mc_eq_sum]
  simp [h0]

/-- Witness for C9 at `an_vol = 1, time = 1/504, mc_paths = 1`, draws 0. -/
theorem C9_tiny_horizon_zero_witness :
    0 < (1 / 504 : ℝ) ∧ (1 / 504 : ℝ) < 1 / 252 ∧ 1 ≤ 1 ∧
    (n_days (1 / 504) = 0 ∧ straddle_pricer_mc 1 (1 / 504) 1 (fun _ _ => 0) = 0) :=
  ⟨by norm_num, by norm_num, le_refl 1,
    C9_tiny_horizon_zero 1 (1 / 504) 1 (fun _ _ => 0) (by norm_num) (by norm_num)
      (le_refl 1)⟩

/-- Claim C10: for every input and every realization of the draws, the value
of `straddle_pricer_mc`, every element of the `five_prices` list (read with
default 0), and the `straddle_return` scalar of `simulate_asset_path` are each
non-negative. -/
theorem C10_estimates_nonneg (an_vol time : ℝ) (mc_paths : ℕ)
    (g : ℕ → ℕ → ℝ) (w : ℕ → ℕ → ℕ → ℝ) (z : ℕ → ℝ) (i : ℕ) :
    0 ≤ straddle_pricer_mc an_vol time mc_paths g ∧
    0 ≤ (five_prices an_vol time mc_paths w).getD i 0 ∧
    0 ≤ (simulate_asset_path an_vol time z).2 := by
  refine ⟨?_, ?_, ?_⟩
  · rw [straddle_pricer_mc_eq_sum]
    exact div_nonneg (Finset.sum_nonneg fun _ _ => abs_nonneg _) (Nat.cast_nonneg _)
  · rw [five_prices_eq_map]
    refine getD_nonneg _ _ fun x hx => ?_
    rcases List.mem_map.mp hx with ⟨k, _, rfl⟩
    exact div_nonneg (Finset.sum_nonneg fun _ _ => abs_nonneg _) (Nat.cast_nonneg _)
  · simp only [simulate_asset_path]
    exact abs_nonneg _

/-- Counterexample to claim C6: at the invalid input `an_vol = -1, time = 1`,
`straddle_price` does not fail fast with an InvalidParameter error — it
applies the closed form regardless and returns an ordinary real number, here a
negative price. -/
theorem C6_counterexample_no_failure : straddle_price (-1) 1 < 0 := by
  rw [straddle_price_eq, Real.sqrt_one]
  have hc : 0 < 2 / Real.sqrt (2 * Real.pi) := by positivity
  nlinarith

/-- Claim C6 as amended: the reference functions perform no parameter
validation; `straddle_price` applies its closed form to any inputs, so a
negative volatility with a positive horizon yields a negative price instead of
an InvalidParameter error. -/
theorem C6_no_validation (an_vol time : ℝ) (hv : an_vol < 0) (ht : 0 < time) :
    straddle_price an_vol time < 0 := by
  rw [straddle_price_eq]
  have hc : 0 < 2 / Real.sqrt (2 * Real.pi) := by positivity
  have h1 : 2 / Real.sqrt (2 * Real.pi) * an_vol < 0 := mul_neg_of_pos_of_neg hc hv
  exact mul_neg_of_neg_of_pos h1 (Real.sqrt_pos.mpr ht)

/-- Witness for the amended C6 at `an_vol = -1, time = 1`. -/
theorem C6_no_validation_witness :
    (-1 : ℝ) < 0 ∧ 0 < (1 : ℝ) ∧ straddle_price (-1) 1 < 0 :=
  ⟨by norm_num, by norm_num, C6_no_validation (-1) 1 (by norm_num) (by norm_num)⟩
